import Mathlib

/-!
Verification of the provider/model auto-resolution heuristic of the chat
client (`app/components/chat/Chat.client.tsx`): the pure local heuristic
`chooseProviderAndModel` and the delegation wrapper
`resolveAutoProviderModel`, shallowly embedded in Lean.

Strings are modelled as Lean `String` (a list of characters); the
JavaScript string length becomes `String.length`.  The code-likeness
regex test is embedded as an executable matcher that scans every suffix
of the message and tries each alternative of the original pattern.
-/

namespace Kodora

/-- A backend model provider, identified by its name; the resolver reads
nothing but the name. -/
structure ProviderInfo where
  name : String
deriving Repr, DecidableEq

/-- The result of resolution: a provider and an optional model identifier
(`none` means the caller's current default applies). -/
structure ResolutionResult where
  provider : ProviderInfo
  model : Option String
deriving Repr, DecidableEq

/-- Word characters of the regex character set used for tag bodies:
ASCII letters, digits, underscore, and the hyphen added by the set. -/
def isWordChar (c : Char) : Bool :=
  ( 'a' ≤ c && c ≤ 'z') || ( 'A' ≤ c && c ≤ 'Z') || ( '0' ≤ c && c ≤ '9') ||
    c == '_' || c == '-'

/-- Does `pat` occur as a prefix of `cs`? -/
def isPrefixList : List Char → List Char → Bool
  | [], _ => true
  | _ :: _, [] => false
  | a :: as, b :: bs => a == b && isPrefixList as bs

/-- Drop a single leading slash if present (the optional slash of the
tag alternative of the regex). -/
def dropSlash (cs : List Char) : List Char :=
  match cs with
  | c :: r => if c = '/' then r else c :: r
  | [] => []

/-- After the body characters: succeed on a closing angle bracket, keep
consuming word characters otherwise. -/
def tagClose : List Char → Bool
  | [] => false
  | c :: rest => c == '>' || (isWordChar c && tagClose rest)

/-- One or more word characters followed by a closing angle bracket. -/
def tagBody : List Char → Bool
  | [] => false
  | c :: rest => isWordChar c && tagClose rest

/-- Match the tag alternative of the regex at the head of `cs`: an
opening angle bracket, an optional slash, one or more word characters,
and a closing angle bracket. -/
def tagFrom : List Char → Bool
  | [] => false
  | c :: rest => c == '<' && tagBody (dropSlash rest)

/-- The literal alternatives of the code-likeness regex, in their
source order. -/
def litPats : List (List Char) :=
  [ "```".toList, "function".toList, "class".toList, "<div".toList,
    "const ".toList, "let ".toList, "var ".toList, "import ".toList,
    "def ".toList, "public ".toList, "private ".toList,
    ";".toList, "\x7b".toList, "(".toList ]

/-- Try every alternative of the regex at the head of `cs`. -/
def matchAltAt (cs : List Char) : Bool :=
  litPats.any (fun pat => isPrefixList pat cs) || tagFrom cs

/-- Does `f` hold on some suffix of the list? -/
def anySuffix (f : List Char → Bool) : List Char → Bool
  | [] => f []
  | c :: cs => f (c :: cs) || anySuffix f cs

/-- The `isCodey` regex test of `chooseProviderAndModel`: the message
matches the pattern when some alternative matches at some position. -/
def messageIsCodey (message : String) : Bool :=
  anySuffix matchAltAt message.toList

/-- Lowercasing as used by the case-insensitive name comparison of the
source (JavaScript `toLowerCase`), applied characterwise. -/
def lowerName (s : String) : String := String.mk (s.data.map Char.toLower)

/-- Case-insensitive lookup of a provider by name among the active
providers (`byName` in the source). -/
def byName (activeProviders : List ProviderInfo) (name : String) : Option ProviderInfo :=
  activeProviders.find? (fun p => lowerName p.name == lowerName name)

/-- Final fallback of the heuristic: the first active provider with no
model chosen, or — with no active provider at all — the synthetic
OpenRouter result with the fixed general routed model id. -/
def fallbackTail (activeProviders : List ProviderInfo) : ResolutionResult :=
  match activeProviders.head? with
  | some first => { provider := first, model := none }
  | none =>
    { provider := { name := "OpenRouter" }, model := some "meta-llama/llama-3.1-8b-instruct" }

/-- The OpenAI branch of the heuristic together with everything after
it: both of its arms resolve to the same fixed model id, exactly as the
source writes them. -/
def openaiTail (short hasImages : Bool)
    (activeProviders : List ProviderInfo) : ResolutionResult :=
  match byName activeProviders "OpenAI" with
  | some p =>
    if hasImages || !short then
      { provider := p, model := some "gpt-4o-mini" }
    else
      { provider := p, model := some "gpt-4o-mini" }
  | none => fallbackTail activeProviders

/-- The OpenRouter branch of the heuristic together with everything
after it. -/
def openrouterTail (isCodey short hasImages : Bool)
    (activeProviders : List ProviderInfo) : ResolutionResult :=
  match byName activeProviders "OpenRouter" with
  | some p =>
    if isCodey && short && !hasImages then
      { provider := p, model := some "deepseek/deepseek-coder" }
    else if hasImages || !short then
      { provider := p, model := some "openai/gpt-4o-mini" }
    else
      { provider := p, model := some "meta-llama/llama-3.1-8b-instruct" }
  | none => openaiTail short hasImages activeProviders

/-- The local heuristic for automatic provider/model choice
(`chooseProviderAndModel` in the source), a pure total function. -/
def chooseProviderAndModel (message : String) (hasImages : Bool)
    (activeProviders : List ProviderInfo) : ResolutionResult :=
  let isCodey := messageIsCodey message
  let short := decide (message.length ≤ 1200)
  match byName activeProviders "LMStudio", short && !hasImages with
  | some p, true =>
    { provider := p,
      model := some (if isCodey then "qwen2.5-coder-7b-instruct" else "meta-llama-3.1-8b-instruct") }
  | _, _ =>
  match byName activeProviders "Ollama", short && !hasImages with
  | some p, true =>
    { provider := p,
      model := some (if isCodey then "deepseek-coder:6.7b" else "llama3.1:8b") }
  | _, _ => openrouterTail isCodey short hasImages activeProviders

/-- The possible behaviours of the optional delegation module at one
invocation: the dynamic import may throw, the loaded module may lack a
callable export of the expected name, the invocation itself may throw,
or it may produce a result. -/
inductive DelegationOutcome where
  | loadFailure
  | noCallable
  | invokeFailure
  | success (r : ResolutionResult)
deriving Repr, DecidableEq

/-- The delegation wrapper (`resolveAutoProviderModel` in the source):
use the delegated result when the module loads, exports the callable and
returns; on any failure fall through to the local heuristic. -/
def resolveAutoProviderModel (d : DelegationOutcome) (message : String)
    (hasImages : Bool) (activeProviders : List ProviderInfo) : ResolutionResult :=
  match d with
  | .success r => r
  | .loadFailure => chooseProviderAndModel message hasImages activeProviders
  | .noCallable => chooseProviderAndModel message hasImages activeProviders
  | .invokeFailure => chooseProviderAndModel message hasImages activeProviders

/-- A provider with the given name (case-insensitively) is active. -/
def activeByName (ps : List ProviderInfo) (name : String) : Prop :=
  ∃ q ∈ ps, lowerName q.name = lowerName name

instance (ps : List ProviderInfo) (name : String) : Decidable (activeByName ps name) := by
  unfold activeByName; infer_instance

/-- `pat` occurs as a contiguous substring of `s`. -/
def ContainsSubstr (s pat : String) : Prop :=
  ∃ a b : List Char, s.toList = a ++ pat.toList ++ b

/-- `s` contains a tag-shaped substring: an opening angle bracket, an
optional slash, a nonempty run of word characters, and a closing angle
bracket. -/
def ContainsTag (s : String) : Prop :=
  ∃ (a sl body b : List Char),
    s.toList = a ++ '<' :: (sl ++ body ++ '>' :: b) ∧
    (sl = [] ∨ sl = [ '/' ]) ∧ body ≠ [] ∧ ∀ c ∈ body, isWordChar c = true

/-- A successful lookup returns an active provider whose lowercased name
matches the lowercased query. -/
theorem byName_eq_some {ps : List ProviderInfo} {name : String} {p : ProviderInfo}
    (h : byName ps name = some p) : p ∈ ps ∧ lowerName p.name = lowerName name := by
  refine ⟨List.mem_of_find?_eq_some h, ?_⟩
  have := List.find?_some h
  simpa using this

/-- When some active provider matches the name case-insensitively, the
lookup succeeds and returns such a provider. -/
theorem byName_eq_some_of_active {ps : List ProviderInfo} {name : String}
    (h : activeByName ps name) :
    ∃ p, byName ps name = some p ∧ p ∈ ps ∧ lowerName p.name = lowerName name := by
  obtain ⟨q, hq, hqn⟩ := h
  have hsome : (byName ps name).isSome := by
    rw [byName, List.find?_isSome]
    exact ⟨q, hq, by simpa using hqn⟩
  obtain ⟨p, hp⟩ := Option.isSome_iff_exists.mp hsome
  exact ⟨p, hp, byName_eq_some hp⟩

/-- When no active provider matches the name case-insensitively, the
lookup returns nothing. -/
theorem byName_eq_none {ps : List ProviderInfo} {name : String}
    (h : ∀ q ∈ ps, lowerName q.name ≠ lowerName name) : byName ps name = none := by
  rw [byName, List.find?_eq_none]
  intro q hq
  simpa using h q hq

/-- Failure of `activeByName` gives a failed lookup. -/
theorem byName_eq_none_of_not_active {ps : List ProviderInfo} {name : String}
    (h : ¬ activeByName ps name) : byName ps name = none :=
  byName_eq_none (by
    intro q hq hqn
    exact h ⟨q, hq, hqn⟩)

/-- C1: for every message, image flag and active-provider sequence, the
local heuristic `chooseProviderAndModel` terminates with a result made of
a `ProviderInfo` and an optional model identifier; being a total Lean
function of the embedded source, it can raise no exception. -/
theorem chooseProviderAndModel_total (message : String) (hasImages : Bool)
    (activeProviders : List ProviderInfo) :
    ∃ (p : ProviderInfo) (m : Option String),
      chooseProviderAndModel message hasImages activeProviders =
        { provider := p, model := m } :=
  ⟨(chooseProviderAndModel message hasImages activeProviders).provider,
   (chooseProviderAndModel message hasImages activeProviders).model, rfl⟩

/-- C2: with no active providers the heuristic returns the synthetic
fallback, a provider named OpenRouter with the fixed general routed model
id; in particular this holds at the message "hello" with no images. -/
theorem chooseProviderAndModel_empty :
    (∀ (message : String) (hasImages : Bool),
      chooseProviderAndModel message hasImages [] =
        { provider := { name := "OpenRouter" },
          model := some "meta-llama/llama-3.1-8b-instruct" }) ∧
    chooseProviderAndModel "hello" false [] =
      { provider := { name := "OpenRouter" },
        model := some "meta-llama/llama-3.1-8b-instruct" } := by
  refine ⟨fun message hasImages => ?_, by decide⟩
  unfold chooseProviderAndModel
  cases hasImages <;> rfl

/-- C3: whenever the delegation attempt fails — the module fails to
load, exports no callable of the expected name, or throws when invoked —
`resolveAutoProviderModel` surfaces no error and returns exactly the
result of the local heuristic on the same input. -/
theorem resolveAutoProviderModel_fallback (d : DelegationOutcome)
    (message : String) (hasImages : Bool) (activeProviders : List ProviderInfo)
    (h : d = .loadFailure ∨ d = .noCallable ∨ d = .invokeFailure) :
    resolveAutoProviderModel d message hasImages activeProviders =
      chooseProviderAndModel message hasImages activeProviders := by
  rcases h with h | h | h <;> subst h <;> rfl

/-- Witness for C3 at a concrete input: an invocation failure over one
active provider falls back to the heuristic. -/
theorem resolveAutoProviderModel_fallback_witness :
    resolveAutoProviderModel .invokeFailure "hello" false [{ name := "Ollama" }] =
      chooseProviderAndModel "hello" false [{ name := "Ollama" }] :=
  resolveAutoProviderModel_fallback .invokeFailure "hello" false
    [{ name := "Ollama" }] (Or.inr (Or.inr rfl))

/-- A successful lookup means a matching provider is active. -/
theorem activeByName_of_byName {ps : List ProviderInfo} {name : String}
    {p : ProviderInfo} (h : byName ps name = some p) : activeByName ps name :=
  ⟨p, (byName_eq_some h).1, (byName_eq_some h).2⟩

/-- C4: when a provider named LMStudio is active (case-insensitively),
the message is at most 1200 characters and there are no images, the
heuristic picks that LMStudio provider, with the hyphenated coder id on
code-like messages and the hyphenated general id otherwise; this branch
wins regardless of any other active providers. -/
theorem chooseProviderAndModel_lmstudio (message : String) (hasImages : Bool)
    (activeProviders : List ProviderInfo)
    (hact : activeByName activeProviders "LMStudio")
    (hlen : message.length ≤ 1200) (himg : hasImages = false) :
    ∃ p, byName activeProviders "LMStudio" = some p ∧ p ∈ activeProviders ∧
      lowerName p.name = "lmstudio" ∧
      chooseProviderAndModel message hasImages activeProviders =
        { provider := p,
          model := some (if messageIsCodey message then "qwen2.5-coder-7b-instruct"
                         else "meta-llama-3.1-8b-instruct") } := by
  obtain ⟨p, hp, hmem, hname⟩ := byName_eq_some_of_active hact
  subst himg
  have hshort : decide (message.length ≤ 1200) = true := decide_eq_true hlen
  refine ⟨p, hp, hmem, hname.trans (by decide), ?_⟩
  simp only [chooseProviderAndModel, hp, hshort, Bool.not_false, Bool.and_true]

/-- Witness for C4: with LMStudio (written in lower case) active next to
Ollama, a short plain message with no images resolves to LMStudio's
general hyphenated id. -/
theorem chooseProviderAndModel_lmstudio_witness :
    ∃ p, byName [{ name := "lmstudio" }, { name := "Ollama" }] "LMStudio" = some p ∧
      p ∈ [{ name := "lmstudio" }, { name := "Ollama" }] ∧
      lowerName p.name = "lmstudio" ∧
      chooseProviderAndModel "hello" false [{ name := "lmstudio" }, { name := "Ollama" }] =
        { provider := p,
          model := some (if messageIsCodey "hello" then "qwen2.5-coder-7b-instruct"
                         else "meta-llama-3.1-8b-instruct") } :=
  chooseProviderAndModel_lmstudio "hello" false
    [{ name := "lmstudio" }, { name := "Ollama" }]
    ⟨{ name := "lmstudio" }, by decide, by decide⟩ (by decide) rfl

/-- C5: when a provider named Ollama is active, none named LMStudio is
active, the message is at most 1200 characters and there are no images,
the heuristic picks that Ollama provider with a colon-delimited alias:
the coder alias on code-like messages, the general alias otherwise. -/
theorem chooseProviderAndModel_ollama (message : String) (hasImages : Bool)
    (activeProviders : List ProviderInfo)
    (hact : activeByName activeProviders "Ollama")
    (hno : ¬ activeByName activeProviders "LMStudio")
    (hlen : message.length ≤ 1200) (himg : hasImages = false) :
    ∃ p, byName activeProviders "Ollama" = some p ∧ p ∈ activeProviders ∧
      lowerName p.name = "ollama" ∧
      chooseProviderAndModel message hasImages activeProviders =
        { provider := p,
          model := some (if messageIsCodey message then "deepseek-coder:6.7b"
                         else "llama3.1:8b") } := by
  obtain ⟨p, hp, hmem, hname⟩ := byName_eq_some_of_active hact
  subst himg
  have hlm : byName activeProviders "LMStudio" = none := byName_eq_none_of_not_active hno
  have hshort : decide (message.length ≤ 1200) = true := decide_eq_true hlen
  refine ⟨p, hp, hmem, hname.trans (by decide), ?_⟩
  simp only [chooseProviderAndModel, hp, hlm, hshort, Bool.not_false, Bool.and_true]

/-- Witness for C5: with only Ollama active, a short code-fenced message
with no images resolves to the colon-delimited coder alias. -/
theorem chooseProviderAndModel_ollama_witness :
    ∃ p, byName [{ name := "Ollama" }] "Ollama" = some p ∧
      p ∈ [{ name := "Ollama" }] ∧ lowerName p.name = "ollama" ∧
      chooseProviderAndModel "```x```" false [{ name := "Ollama" }] =
        { provider := p,
          model := some (if messageIsCodey "```x```" then "deepseek-coder:6.7b"
                         else "llama3.1:8b") } :=
  chooseProviderAndModel_ollama "```x```" false [{ name := "Ollama" }]
    ⟨{ name := "Ollama" }, by decide, by decide⟩ (by decide) (by decide) rfl

/-- When neither the LMStudio branch nor the Ollama branch fires, the
heuristic reduces to its OpenRouter tail. -/
theorem chooseProviderAndModel_eq_openrouterTail (message : String) (hasImages : Bool)
    (activeProviders : List ProviderInfo)
    (hlm : ¬ (activeByName activeProviders "LMStudio" ∧
              message.length ≤ 1200 ∧ hasImages = false))
    (holl : ¬ (activeByName activeProviders "Ollama" ∧
               message.length ≤ 1200 ∧ hasImages = false)) :
    chooseProviderAndModel message hasImages activeProviders =
      openrouterTail (messageIsCodey message) (decide (message.length ≤ 1200))
        hasImages activeProviders := by
  by_cases hsb : message.length ≤ 1200 ∧ hasImages = false
  · obtain ⟨hl, hi⟩ := hsb
    have h1 : byName activeProviders "LMStudio" = none :=
      byName_eq_none_of_not_active (fun ha => hlm ⟨ha, hl, hi⟩)
    have h2 : byName activeProviders "Ollama" = none :=
      byName_eq_none_of_not_active (fun ha => holl ⟨ha, hl, hi⟩)
    simp only [chooseProviderAndModel, h1, h2]
  · have hb : (decide (message.length ≤ 1200) && !hasImages) = false := by
      by_cases hl : message.length ≤ 1200
      · cases hasImages
        · exact absurd ⟨hl, rfl⟩ hsb
        · simp
      · simp [hl]
    rcases hL : byName activeProviders "LMStudio" with _ | q <;>
      rcases hO : byName activeProviders "Ollama" with _ | r <;>
        simp only [chooseProviderAndModel, hL, hO, hb]

/-- C6: when a provider named OpenRouter is active and neither the
LMStudio rule nor the Ollama rule applies, the heuristic picks that
OpenRouter provider: the routed coder id on short imageless code-like
messages, the vision-capable routed id when there are images or the
message exceeds 1200 characters, and the general routed id otherwise. -/
theorem chooseProviderAndModel_openrouter (message : String) (hasImages : Bool)
    (activeProviders : List ProviderInfo)
    (hact : activeByName activeProviders "OpenRouter")
    (hlm : ¬ (activeByName activeProviders "LMStudio" ∧
              message.length ≤ 1200 ∧ hasImages = false))
    (holl : ¬ (activeByName activeProviders "Ollama" ∧
               message.length ≤ 1200 ∧ hasImages = false)) :
    ∃ p, byName activeProviders "OpenRouter" = some p ∧ p ∈ activeProviders ∧
      lowerName p.name = "openrouter" ∧
      (messageIsCodey message = true → message.length ≤ 1200 → hasImages = false →
        chooseProviderAndModel message hasImages activeProviders =
          { provider := p, model := some "deepseek/deepseek-coder" }) ∧
      (hasImages = true ∨ 1200 < message.length →
        chooseProviderAndModel message hasImages activeProviders =
          { provider := p, model := some "openai/gpt-4o-mini" }) ∧
      (messageIsCodey message = false → message.length ≤ 1200 → hasImages = false →
        chooseProviderAndModel message hasImages activeProviders =
          { provider := p, model := some "meta-llama/llama-3.1-8b-instruct" }) := by
  obtain ⟨p, hp, hmem, hname⟩ := byName_eq_some_of_active hact
  have heq := chooseProviderAndModel_eq_openrouterTail message hasImages
    activeProviders hlm holl
  refine ⟨p, hp, hmem, hname.trans (by decide), ?_, ?_, ?_⟩
  · intro hc hl hi
    subst hi
    rw [heq]
    simp [openrouterTail, hp, hc, decide_eq_true hl]
  · intro h
    rw [heq]
    rcases h with hi | hl
    · subst hi
      simp [openrouterTail, hp]
    · have hs : decide (message.length ≤ 1200) = false :=
        decide_eq_false (Nat.not_le.mpr hl)
      simp [openrouterTail, hp, hs]
  · intro hc hl hi
    subst hi
    rw [heq]
    simp [openrouterTail, hp, hc, decide_eq_true hl]

/-- Witness for C6 at concrete inputs: with Ollama and OpenRouter active
and a message carrying images, the Ollama rule is skipped and
OpenRouter's images arm yields the vision-capable routed id. -/
theorem chooseProviderAndModel_openrouter_witness :
    ∃ p, byName [{ name := "Ollama" }, { name := "OpenRouter" }] "OpenRouter" = some p ∧
      p ∈ [{ name := "Ollama" }, { name := "OpenRouter" }] ∧
      lowerName p.name = "openrouter" ∧
      (messageIsCodey "hi" = true → "hi".length ≤ 1200 → true = false →
        chooseProviderAndModel "hi" true
          [{ name := "Ollama" }, { name := "OpenRouter" }] =
          { provider := p, model := some "deepseek/deepseek-coder" }) ∧
      (true = true ∨ 1200 < "hi".length →
        chooseProviderAndModel "hi" true
          [{ name := "Ollama" }, { name := "OpenRouter" }] =
          { provider := p, model := some "openai/gpt-4o-mini" }) ∧
      (messageIsCodey "hi" = false → "hi".length ≤ 1200 → true = false →
        chooseProviderAndModel "hi" true
          [{ name := "Ollama" }, { name := "OpenRouter" }] =
          { provider := p, model := some "meta-llama/llama-3.1-8b-instruct" }) :=
  chooseProviderAndModel_openrouter "hi" true
    [{ name := "Ollama" }, { name := "OpenRouter" }]
    ⟨{ name := "OpenRouter" }, by decide, by decide⟩
    (by intro h; exact Bool.noConfusion h.2.2)
    (by intro h; exact Bool.noConfusion h.2.2)

/-- C7: when a provider named OpenAI is active and none of the LMStudio,
Ollama or OpenRouter rules applies, the heuristic picks that OpenAI
provider with the same fixed model id on both of its arms. -/
theorem chooseProviderAndModel_openai (message : String) (hasImages : Bool)
    (activeProviders : List ProviderInfo)
    (hact : activeByName activeProviders "OpenAI")
    (hlm : ¬ (activeByName activeProviders "LMStudio" ∧
              message.length ≤ 1200 ∧ hasImages = false))
    (holl : ¬ (activeByName activeProviders "Ollama" ∧
               message.length ≤ 1200 ∧ hasImages = false))
    (hor : ¬ activeByName activeProviders "OpenRouter") :
    ∃ p, byName activeProviders "OpenAI" = some p ∧ p ∈ activeProviders ∧
      lowerName p.name = "openai" ∧
      chooseProviderAndModel message hasImages activeProviders =
        { provider := p, model := some "gpt-4o-mini" } := by
  obtain ⟨p, hp, hmem, hname⟩ := byName_eq_some_of_active hact
  have hornone : byName activeProviders "OpenRouter" = none :=
    byName_eq_none_of_not_active hor
  have heq := chooseProviderAndModel_eq_openrouterTail message hasImages
    activeProviders hlm holl
  refine ⟨p, hp, hmem, hname.trans (by decide), ?_⟩
  rw [heq]
  simp only [openrouterTail, hornone, openaiTail, hp, ite_self]

/-- Witness for C7: with only OpenAI active, a short plain message with
no images resolves to OpenAI with its fixed model id. -/
theorem chooseProviderAndModel_openai_witness :
    ∃ p, byName [{ name := "OpenAI" }] "OpenAI" = some p ∧
      p ∈ [{ name := "OpenAI" }] ∧ lowerName p.name = "openai" ∧
      chooseProviderAndModel "hi" false [{ name := "OpenAI" }] =
        { provider := p, model := some "gpt-4o-mini" } :=
  chooseProviderAndModel_openai "hi" false [{ name := "OpenAI" }]
    ⟨{ name := "OpenAI" }, by decide, by decide⟩
    (by intro h; exact absurd h.1 (by decide))
    (by intro h; exact absurd h.1 (by decide))
    (by decide)

/-- Shape of the OpenRouter tail: it yields either a looked-up provider
bearing one of the four recognized names, or the first active provider
with no model, or the synthetic fallback when no provider is active. -/
theorem openrouterTail_shape (isCodey short hasImages : Bool)
    (ps : List ProviderInfo) :
    (∃ p m, openrouterTail isCodey short hasImages ps = { provider := p, model := m } ∧
      p ∈ ps ∧
      lowerName p.name ∈ (["lmstudio", "ollama", "openrouter", "openai"] : List String)) ∨
    (∃ p, ps.head? = some p ∧
      openrouterTail isCodey short hasImages ps = { provider := p, model := none }) ∨
    (ps = [] ∧ openrouterTail isCodey short hasImages ps =
      { provider := { name := "OpenRouter" },
        model := some "meta-llama/llama-3.1-8b-instruct" }) := by
  rcases hR : byName ps "OpenRouter" with _ | p
  · rcases hA : byName ps "OpenAI" with _ | q
    · rcases hps : ps with _ | ⟨r, rest⟩
      · right; right
        refine ⟨rfl, ?_⟩
        simp only [openrouterTail, openaiTail, fallbackTail, hps ▸ hR, hps ▸ hA,
          List.head?]
      · right; left
        refine ⟨r, rfl, ?_⟩
        simp only [openrouterTail, openaiTail, fallbackTail, hps ▸ hR, hps ▸ hA,
          List.head?]
    · left
      obtain ⟨hmem, hname⟩ := byName_eq_some hA
      refine ⟨q, some "gpt-4o-mini", ?_, hmem, ?_⟩
      · simp only [openrouterTail, openaiTail, hR, hA, ite_self]
      · rw [hname]; decide
  · left
    obtain ⟨hmem, hname⟩ := byName_eq_some hR
    have hn : lowerName p.name ∈ (["lmstudio", "ollama", "openrouter", "openai"] : List String) := by
      rw [hname]; decide
    by_cases h1 : (isCodey && short && !hasImages) = true
    · exact ⟨p, some "deepseek/deepseek-coder",
        by simp only [openrouterTail, hR, h1, if_true], hmem, hn⟩
    · by_cases h2 : (hasImages || !short) = true
      · exact ⟨p, some "openai/gpt-4o-mini",
          by simp [openrouterTail, hR, h1, h2], hmem, hn⟩
      · exact ⟨p, some "meta-llama/llama-3.1-8b-instruct",
          by simp [openrouterTail, hR, h1, h2], hmem, hn⟩

/-- Shape of the whole heuristic: the result is either a looked-up
provider bearing one of the four recognized names, or the first active
provider with no model, or the synthetic fallback on an empty
provider sequence. -/
theorem chooseProviderAndModel_shape (message : String) (hasImages : Bool)
    (ps : List ProviderInfo) :
    (∃ p m, chooseProviderAndModel message hasImages ps = { provider := p, model := m } ∧
      p ∈ ps ∧
      lowerName p.name ∈ (["lmstudio", "ollama", "openrouter", "openai"] : List String)) ∨
    (∃ p, ps.head? = some p ∧
      chooseProviderAndModel message hasImages ps = { provider := p, model := none }) ∨
    (ps = [] ∧ chooseProviderAndModel message hasImages ps =
      { provider := { name := "OpenRouter" },
        model := some "meta-llama/llama-3.1-8b-instruct" }) := by
  rcases hL : byName ps "LMStudio" with _ | p
  · rcases hO : byName ps "Ollama" with _ | q
    · have heq : chooseProviderAndModel message hasImages ps =
        openrouterTail (messageIsCodey message) (decide (message.length ≤ 1200))
          hasImages ps := by
        simp only [chooseProviderAndModel, hL, hO]
      rw [heq]
      exact openrouterTail_shape _ _ _ _
    · obtain ⟨hmem, hname⟩ := byName_eq_some hO
      cases hb : (decide (message.length ≤ 1200) && !hasImages) with
      | true =>
        left
        refine ⟨q, some (if messageIsCodey message then "deepseek-coder:6.7b"
          else "llama3.1:8b"), ?_, hmem, ?_⟩
        · simp only [chooseProviderAndModel, hL, hO, hb]
        · rw [hname]; decide
      | false =>
        have heq : chooseProviderAndModel message hasImages ps =
          openrouterTail (messageIsCodey message) (decide (message.length ≤ 1200))
            hasImages ps := by
          simp only [chooseProviderAndModel, hL, hO, hb]
        rw [heq]
        exact openrouterTail_shape _ _ _ _
  · obtain ⟨hmem, hname⟩ := byName_eq_some hL
    cases hb : (decide (message.length ≤ 1200) && !hasImages) with
    | true =>
      left
      refine ⟨p, some (if messageIsCodey message then "qwen2.5-coder-7b-instruct"
        else "meta-llama-3.1-8b-instruct"), ?_, hmem, ?_⟩
      · simp only [chooseProviderAndModel, hL, hb]
      · rw [hname]; decide
    | false =>
      rcases hO : byName ps "Ollama" with _ | q
      · have heq : chooseProviderAndModel message hasImages ps =
          openrouterTail (messageIsCodey message) (decide (message.length ≤ 1200))
            hasImages ps := by
          simp only [chooseProviderAndModel, hL, hO, hb]
        rw [heq]
        exact openrouterTail_shape _ _ _ _
      · have heq : chooseProviderAndModel message hasImages ps =
          openrouterTail (messageIsCodey message) (decide (message.length ≤ 1200))
            hasImages ps := by
          simp only [chooseProviderAndModel, hL, hO, hb]
        rw [heq]
        exact openrouterTail_shape _ _ _ _

/-- C9: provider lookup matches the four well-known names
case-insensitively among the active providers, returns nothing (it
cannot throw, being a total function) when no name matches, and a
provider bearing any other name can only be returned by the final
fallback branch: the first active provider, with no model chosen. -/
theorem byName_and_unrecognized_spec :
    (∀ (ps : List ProviderInfo) (name : String) (p : ProviderInfo),
      byName ps name = some p → p ∈ ps ∧ lowerName p.name = lowerName name) ∧
    (∀ (ps : List ProviderInfo) (name : String),
      (∀ q ∈ ps, lowerName q.name ≠ lowerName name) → byName ps name = none) ∧
    (∀ (message : String) (hasImages : Bool) (ps : List ProviderInfo),
      lowerName (chooseProviderAndModel message hasImages ps).provider.name ∉
        (["lmstudio", "ollama", "openrouter", "openai"] : List String) →
      ps.head? = some (chooseProviderAndModel message hasImages ps).provider ∧
      (chooseProviderAndModel message hasImages ps).model = none) := by
  refine ⟨fun ps name p h => byName_eq_some h, fun ps name h => byName_eq_none h, ?_⟩
  intro message hasImages ps h
  rcases chooseProviderAndModel_shape message hasImages ps with
    ⟨p, m, heq, _, hname⟩ | ⟨p, hh, heq⟩ | ⟨_, heq⟩
  · rw [heq] at h
    exact absurd hname h
  · rw [heq]
    exact ⟨hh, rfl⟩
  · rw [heq] at h
    exact absurd (by decide) h

/-- Witness for C9 at concrete inputs: the lookup of LMStudio among an
Ollama-only sequence fails, and an unrecognized provider comes back only
as the leading fallback with no model. -/
theorem byName_and_unrecognized_spec_witness :
    byName [{ name := "Ollama" }] "LMStudio" = none ∧
    ([{ name := "MyProvider" }].head? =
      some (chooseProviderAndModel "hello" false [{ name := "MyProvider" }]).provider ∧
     (chooseProviderAndModel "hello" false [{ name := "MyProvider" }]).model = none) :=
  ⟨byName_and_unrecognized_spec.2.1 [{ name := "Ollama" }] "LMStudio"
      (by intro q hq; fin_cases hq; decide),
   byName_and_unrecognized_spec.2.2 "hello" false [{ name := "MyProvider" }]
      (by decide)⟩

/-- C10: with a non-empty active-provider sequence the heuristic always
returns one of the given providers; the synthetic OpenRouter object can
only appear when the sequence is empty. -/
theorem chooseProviderAndModel_mem (message : String) (hasImages : Bool)
    (ps : List ProviderInfo) (h : ps ≠ []) :
    (chooseProviderAndModel message hasImages ps).provider ∈ ps := by
  rcases chooseProviderAndModel_shape message hasImages ps with
    ⟨p, m, heq, hmem, _⟩ | ⟨p, hh, heq⟩ | ⟨hps, _⟩
  · rw [heq]; exact hmem
  · rw [heq]
    rcases ps with _ | ⟨r, rest⟩
    · exact absurd rfl h
    · simp only [List.head?] at hh
      have hrp : r = p := Option.some_injective _ hh
      subst hrp
      exact List.mem_cons_self _ _
  · exact absurd hps h

/-- Witness for C10: with one active provider of unrecognized name, the
returned provider is an element of the sequence. -/
theorem chooseProviderAndModel_mem_witness :
    (chooseProviderAndModel "hello" false [{ name := "Zeta" }]).provider ∈
      [({ name := "Zeta" } : ProviderInfo)] :=
  chooseProviderAndModel_mem "hello" false [{ name := "Zeta" }] (by decide)

/-- `isPrefixList` decides list-prefix containment. -/
theorem isPrefixList_iff (pat cs : List Char) :
    isPrefixList pat cs = true ↔ ∃ rest, cs = pat ++ rest := by
  induction pat generalizing cs with
  | nil =>
    simp [isPrefixList]
  | cons a as ih =>
    cases cs with
    | nil =>
      simp [isPrefixList]
    | cons b bs =>
      simp only [isPrefixList, Bool.and_eq_true, beq_iff_eq, ih]
      constructor
      · rintro ⟨rfl, rest, rfl⟩
        exact ⟨rest, rfl⟩
      · rintro ⟨rest, h⟩
        injection h with h1 h2
        exact ⟨h1.symm, rest, h2⟩

/-- `anySuffix` decides existence of a suffix satisfying the test. -/
theorem anySuffix_iff (f : List Char → Bool) (cs : List Char) :
    anySuffix f cs = true ↔ ∃ a b, cs = a ++ b ∧ f b = true := by
  induction cs with
  | nil =>
    simp only [anySuffix]
    constructor
    · intro h
      exact ⟨[], [], rfl, h⟩
    · rintro ⟨a, b, hab, hb⟩
      obtain ⟨ha, hb'⟩ := List.append_eq_nil.mp hab.symm
      subst ha; subst hb'
      exact hb
  | cons c cs ih =>
    simp only [anySuffix, Bool.or_eq_true, ih]
    constructor
    · rintro (h | ⟨a, b, hab, hb⟩)
      · exact ⟨[], c :: cs, rfl, h⟩
      · exact ⟨c :: a, b, by rw [List.cons_append, hab], hb⟩
    · rintro ⟨a, b, hab, hb⟩
      cases a with
      | nil =>
        rw [List.nil_append] at hab
        subst hab
        exact Or.inl hb
      | cons a' as =>
        injection hab with h1 h2
        exact Or.inr ⟨as, b, h2, hb⟩

/-- `tagClose` accepts exactly the lists made of a word-character run
closed by an angle bracket, with arbitrary remainder. -/
theorem tagClose_iff (cs : List Char) :
    tagClose cs = true ↔
      ∃ body rest, cs = body ++ '>' :: rest ∧ ∀ c ∈ body, isWordChar c = true := by
  induction cs with
  | nil =>
    constructor
    · intro h
      exact absurd h (by simp [tagClose])
    · rintro ⟨body, rest, h, -⟩
      cases body <;> simp_all
  | cons c cs ih =>
    simp only [tagClose, Bool.or_eq_true, Bool.and_eq_true, beq_iff_eq, ih]
    constructor
    · rintro (rfl | ⟨hw, body, rest, rfl, hbody⟩)
      · exact ⟨[], cs, rfl, by simp⟩
      · refine ⟨c :: body, rest, rfl, ?_⟩
        intro d hd
        rcases List.mem_cons.mp hd with rfl | hd
        · exact hw
        · exact hbody d hd
    · rintro ⟨body, rest, h, hbody⟩
      cases body with
      | nil =>
        injection h with h1 h2
        exact Or.inl h1
      | cons b bs =>
        injection h with h1 h2
        subst h1
        exact Or.inr ⟨hbody c (List.mem_cons_self _ _),
          bs, rest, h2, fun d hd => hbody d (List.mem_cons_of_mem _ hd)⟩

/-- `tagBody` accepts exactly the lists opening with a nonempty
word-character run closed by an angle bracket. -/
theorem tagBody_iff (cs : List Char) :
    tagBody cs = true ↔
      ∃ body rest, cs = body ++ '>' :: rest ∧ body ≠ [] ∧
        ∀ c ∈ body, isWordChar c = true := by
  cases cs with
  | nil =>
    constructor
    · intro h
      exact absurd h (by simp [tagBody])
    · rintro ⟨body, rest, h, hne, -⟩
      cases body <;> simp_all
  | cons c cs =>
    simp only [tagBody, Bool.and_eq_true, tagClose_iff]
    constructor
    · rintro ⟨hw, body, rest, rfl, hbody⟩
      refine ⟨c :: body, rest, rfl, by simp, ?_⟩
      intro d hd
      rcases List.mem_cons.mp hd with rfl | hd
      · exact hw
      · exact hbody d hd
    · rintro ⟨body, rest, h, hne, hbody⟩
      cases body with
      | nil => exact absurd rfl hne
      | cons b bs =>
        injection h with h1 h2
        subst h1
        exact ⟨hbody c (List.mem_cons_self _ _),
          bs, rest, h2, fun d hd => hbody d (List.mem_cons_of_mem _ hd)⟩

/-- Dropping the optional slash, on a leading slash. -/
theorem dropSlash_slash (r : List Char) : dropSlash ( '/' :: r) = r := by
  simp [dropSlash]

/-- Dropping the optional slash leaves any other list unchanged. -/
theorem dropSlash_other {c : Char} (h : ¬ c = '/') (r : List Char) :
    dropSlash (c :: r) = c :: r := by
  simp [dropSlash, h]

/-- The slash is not a word character. -/
theorem isWordChar_slash : isWordChar '/' = false := by decide

/-- `tagFrom` matches the tag alternative of the regex exactly: an
opening angle bracket, an optional slash, a nonempty word-character run,
a closing angle bracket, and arbitrary remainder. -/
theorem tagFrom_iff (cs : List Char) :
    tagFrom cs = true ↔
      ∃ sl body rest, cs = '<' :: (sl ++ body ++ '>' :: rest) ∧
        (sl = [] ∨ sl = [ '/' ]) ∧ body ≠ [] ∧
        ∀ c ∈ body, isWordChar c = true := by
  cases cs with
  | nil =>
    constructor
    · intro h
      exact absurd h (by simp [tagFrom])
    · rintro ⟨sl, body, rest, h, -, -, -⟩
      exact absurd h (by simp)
  | cons c cs =>
    simp only [tagFrom, Bool.and_eq_true, beq_iff_eq]
    constructor
    · rintro ⟨rfl, hb⟩
      cases cs with
      | nil => exact absurd hb (by simp [dropSlash, tagBody])
      | cons d ds =>
        by_cases hd : d = '/'
        · subst hd
          rw [dropSlash_slash] at hb
          obtain ⟨body, rest, rfl, hne, hbody⟩ := (tagBody_iff ds).mp hb
          exact ⟨[ '/' ], body, rest, rfl, Or.inr rfl, hne, hbody⟩
        · rw [dropSlash_other hd] at hb
          obtain ⟨body, rest, heq, hne, hbody⟩ := (tagBody_iff (d :: ds)).mp hb
          exact ⟨[], body, rest, by rw [List.nil_append, ← heq], Or.inl rfl, hne, hbody⟩
    · rintro ⟨sl, body, rest, h, hsl | hsl, hne, hbody⟩
      · subst hsl
        rw [List.nil_append] at h
        injection h with h1 h2
        subst h1
        refine ⟨rfl, ?_⟩
        cases body with
        | nil => exact absurd rfl hne
        | cons b bs =>
          have hb : isWordChar b = true := hbody b (List.mem_cons_self _ _)
          have hbne : ¬ b = '/' := by
            intro hcontra
            rw [hcontra, isWordChar_slash] at hb
            exact Bool.noConfusion hb
          rw [h2, List.cons_append, dropSlash_other hbne]
          exact (tagBody_iff _).mpr ⟨b :: bs, rest, by simp, by simp, hbody⟩
      · subst hsl
        injection h with h1 h2
        subst h1
        refine ⟨rfl, ?_⟩
        have hds : dropSlash ([ '/' ] ++ body ++ '>' :: rest) = body ++ '>' :: rest := by
          simp [dropSlash]
        rw [h2, hds]
        exact (tagBody_iff _).mpr ⟨body, rest, rfl, hne, hbody⟩

/-- A suffix decomposition with a prefix match is exactly substring
containment. -/
theorem containsSubstrList_iff (s : String) (pat : List Char) :
    (∃ a b, s.toList = a ++ b ∧ isPrefixList pat b = true) ↔
      ∃ a b, s.toList = a ++ pat ++ b := by
  constructor
  · rintro ⟨a, b, hab, hpb⟩
    obtain ⟨rest, rfl⟩ := (isPrefixList_iff pat b).mp hpb
    exact ⟨a, rest, by rw [hab, List.append_assoc]⟩
  · rintro ⟨a, b, hab⟩
    exact ⟨a, pat ++ b, by rw [hab, List.append_assoc],
      (isPrefixList_iff pat _).mpr ⟨b, rfl⟩⟩

/-- A suffix decomposition with a tag match is exactly tag
containment. -/
theorem containsTag_iff (s : String) :
    (∃ a b, s.toList = a ++ b ∧ tagFrom b = true) ↔ ContainsTag s := by
  constructor
  · rintro ⟨a, b, hab, hb⟩
    obtain ⟨sl, body, rest, rfl, hsl, hne, hw⟩ := (tagFrom_iff b).mp hb
    exact ⟨a, sl, body, rest, hab, hsl, hne, hw⟩
  · rintro ⟨a, sl, body, b, h, hsl, hne, hw⟩
    exact ⟨a, '<' :: (sl ++ body ++ '>' :: b), h,
      (tagFrom_iff _).mpr ⟨sl, body, b, rfl, hsl, hne, hw⟩⟩

/-- The scanner accepts exactly when one of the literal alternatives
occurs as a substring, or a tag-shaped substring occurs. -/
theorem messageIsCodey_eq_alternatives (s : String) :
    messageIsCodey s = true ↔
      (∃ pat ∈ litPats, ∃ a b, s.toList = a ++ pat ++ b) ∨ ContainsTag s := by
  rw [messageIsCodey, anySuffix_iff]
  constructor
  · rintro ⟨a, b, hab, hb⟩
    rw [matchAltAt, Bool.or_eq_true, List.any_eq_true] at hb
    rcases hb with ⟨pat, hmem, hp⟩ | h
    · obtain ⟨rest, rfl⟩ := (isPrefixList_iff pat b).mp hp
      exact Or.inl ⟨pat, hmem, a, rest, by rw [hab, List.append_assoc]⟩
    · exact Or.inr ((containsTag_iff s).mp ⟨a, b, hab, h⟩)
  · rintro (⟨pat, hmem, a, b, hab⟩ | h)
    · refine ⟨a, pat ++ b, by rw [hab, List.append_assoc], ?_⟩
      rw [matchAltAt, Bool.or_eq_true, List.any_eq_true]
      exact Or.inl ⟨pat, hmem, (isPrefixList_iff pat _).mpr ⟨b, rfl⟩⟩
    · obtain ⟨a, b, hab, hb⟩ := (containsTag_iff s).mpr h
      refine ⟨a, b, hab, ?_⟩
      rw [matchAltAt, Bool.or_eq_true]
      exact Or.inr hb

/-- C8 (amended): the heuristic classifies a message as code-like
exactly when it contains a code fence marker, the keyword function or
class anywhere, the substring made of div after an opening angle
bracket, one of the keywords const, let, var, import, def, public,
private immediately followed by a space, a semicolon, an opening brace,
an opening parenthesis, or a tag-shaped substring (an opening angle
bracket, an optional slash, one or more word characters, a closing
angle bracket). -/
theorem messageIsCodey_iff (s : String) :
    messageIsCodey s = true ↔
      ContainsSubstr s "```" ∨ ContainsSubstr s "function" ∨
      ContainsSubstr s "class" ∨ ContainsSubstr s "<div" ∨
      ContainsSubstr s "const " ∨ ContainsSubstr s "let " ∨
      ContainsSubstr s "var " ∨ ContainsSubstr s "import " ∨
      ContainsSubstr s "def " ∨ ContainsSubstr s "public " ∨
      ContainsSubstr s "private " ∨ ContainsSubstr s ";" ∨
      ContainsSubstr s "\x7b" ∨ ContainsSubstr s "(" ∨ ContainsTag s := by
  rw [messageIsCodey_eq_alternatives]
  simp only [ContainsSubstr, litPats, List.mem_cons, List.not_mem_nil, or_false,
    exists_eq_or_imp, exists_false, exists_eq_left, or_assoc]

/-- Counterexample to C8 as stated: the message "const" contains the
listed keyword const, yet the heuristic does not classify it as
code-like — the underlying pattern requires a space after that
keyword. -/
theorem messageIsCodey_const_counterexample :
    ContainsSubstr "const" "const" ∧ messageIsCodey "const" = false :=
  ⟨⟨[], [], by decide⟩, by decide⟩

end Kodora
